import Mathlib

/-!
Verification of the document question-answering pipeline of this repository
(`HealthLink/app` and `app`): text chunking (`pdf_processor.py`), the
keyword / semantic relevance index (`embeddings.py` in both trees), context
assembly, answer generation and the request orchestrator (`qa_service.py`).

External collaborators (PyMuPDF page texts, the Gemini embedding and
generation endpoints) are passed in as oracle functions; everything else is
translated from the Python source.  Python floats are idealised as real
numbers.
-/

namespace DocQA

/-! ## String primitives

Python string operations used by the source, modelled directly over the
character list of a `String` so that they compute by kernel reduction. -/

/-- Helper for `pySplit`: walks the characters, accumulating the current word
(reversed) in `acc`, emitting a word at each whitespace run boundary. -/
def splitWordsAux : List Char → List Char → List (List Char)
  | [], acc => if acc.isEmpty then [] else [acc.reverse]
  | c :: cs, acc =>
      if c.isWhitespace then
        if acc.isEmpty then splitWordsAux cs [] else acc.reverse :: splitWordsAux cs []
      else splitWordsAux cs (c :: acc)

/-- Models Python `str.split()` (no argument): split on whitespace runs,
dropping empty pieces. -/
def pySplit (s : String) : List String :=
  (splitWordsAux s.data []).map (fun l => String.mk l)

/-- Models Python `sep.join(parts)`. -/
def pyJoin (sep : String) : List String → String
  | [] => ""
  | [w] => w
  | w :: x :: ws => w ++ sep ++ pyJoin sep (x :: ws)

/-- Models Python `' '.join(words)`. -/
def joinWords (ws : List String) : String := pyJoin (" ") ws

/-- Models Python `str.lower()` (ASCII case folding, as used here). -/
def pyLower (s : String) : String := String.mk (s.data.map Char.toLower)

/-- Models Python `str.strip()` with no argument. -/
def pyStrip (s : String) : String :=
  String.mk (((s.data.dropWhile Char.isWhitespace).reverse.dropWhile Char.isWhitespace).reverse)

/-- Models Python `str.replace(old, new)` for a single-character `old` with
`' '` as replacement, the only form the source uses. -/
def replaceChar (bad : Char) (s : String) : String :=
  String.mk (s.data.map (fun c => if c = bad then ' ' else c))

/-- Models `set(text.lower().split())`: the deduplicated lower-cased word
list; set membership is list membership. -/
def wordSet (s : String) : List String := (pySplit (pyLower s)).dedup

/-- Models `len(query_words.intersection(chunk_words))` from
`search_similar_chunks`: the number of distinct query words occurring among
the content's words. -/
def overlapScore (query content : String) : Nat :=
  ((wordSet query).filter (fun w => (wordSet content).contains w)).length

/-! ## Data model (`app/models/schemas.py`) -/

/-- Models `DocumentChunk` of `app/models/schemas.py`.  The unused optional
`embedding` field is kept for fidelity; the services store embeddings in a
separate list. -/
structure DocumentChunk where
  content : String
  chunk_id : Int
  page_number : Option Int
  embedding : Option (List ℝ)

/-- Models `QAResponse` of `app/models/schemas.py`. -/
structure QAResponse where
  answers : List String

/-! ## Configuration (`core/config.py`) -/

def CHUNK_SIZE : Nat := 400

def CHUNK_OVERLAP : Nat := 50

def TOP_K_CHUNKS : Nat := 5

/-! ## Text extraction and chunking (`HealthLink/app/services/pdf_processor.py`) -/

namespace PDF

/-- Models `PDFProcessor._clean_text`: collapse whitespace runs, strip the
null and replacement characters, trim. -/
def clean_text (text : String) : String :=
  pyStrip (replaceChar (Char.ofNat 0xFFFD) (replaceChar (Char.ofNat 0) (joinWords (pySplit text))))

/-- Loop of `extract_text_from_pdf`: keeps the cleaned text of non-blank
pages, tagged with the 1-based page number `n`. -/
def extractPages : List String → Int → List (String × Int)
  | [], _ => []
  | t :: ts, n =>
      if pyStrip (clean_text t) = "" then extractPages ts (n + 1)
      else (clean_text t, n) :: extractPages ts (n + 1)

/-- Models `PDFProcessor.extract_text_from_pdf`; the oracle `pageTexts` gives
`page.get_text()` for each page of the PyMuPDF document, in page order. -/
def extract_text_from_pdf (pageTexts : List String) : List (String × Int) :=
  extractPages pageTexts 1

/-- Models `range(0, stop, step)` for `step > 0`. -/
def pyRangeIdx (stop step : Nat) : List Nat :=
  (List.range ((stop + step - 1) / step)).map (fun j => j * step)

/-- The window contents kept for one page: windows of `CHUNK_SIZE` words with
step `CHUNK_SIZE - CHUNK_OVERLAP`, windows of fewer than 10 words skipped. -/
def page_windows (words : List String) : List String :=
  (pyRangeIdx words.length (CHUNK_SIZE - CHUNK_OVERLAP)).filterMap (fun i =>
    let w := (words.drop i).take CHUNK_SIZE
    if w.length < 10 then none else some (joinWords w))

/-- Inner loop of `chunk_text`: emit one chunk per kept window, threading the
global `chunk_id` counter. -/
def emit_windows (p : Int) (nid : Int) : List String → List DocumentChunk
  | [] => []
  | c :: cs => ⟨c, nid, some p, none⟩ :: emit_windows p (nid + 1) cs

/-- Outer loop of `chunk_text` over the pages, threading the counter. -/
def chunk_pages : List (String × Int) → Int → List DocumentChunk
  | [], _ => []
  | (t, p) :: rest, nid =>
      let ws := page_windows (pySplit t)
      emit_windows p nid ws ++ chunk_pages rest (nid + ws.length)

/-- Models `PDFProcessor.chunk_text` (with the settings 400 / 50). -/
def chunk_text (text_pages : List (String × Int)) : List DocumentChunk :=
  chunk_pages text_pages 0

/-- Models `PDFProcessor.process_pdf` from the extraction step on; download
is an oracle delivering the PyMuPDF page texts. -/
def process_pdf (pageTexts : List String) : Except String (List DocumentChunk) :=
  let tp := extract_text_from_pdf pageTexts
  if tp.isEmpty then Except.error ("No text could be extracted from the PDF")
  else
    let cs := chunk_text tp
    if cs.isEmpty then Except.error ("No valid chunks could be created from the PDF")
    else Except.ok cs

end PDF

/-! ## Context assembly

`get_context_for_question` has the same assembly code in
`HealthLink/app/services/embeddings.py` and `app/services/embeddings.py`;
it is modelled once. -/

/-- Models `f"[Page {chunk.page_number}]" if chunk.page_number else
"[Unknown Page]"`: by Python truthiness, both `None` and `0` take the
`[Unknown Page]` branch. -/
def page_info (chunk : DocumentChunk) : String :=
  match chunk.page_number with
  | some n => if n = 0 then "[Unknown Page]" else "[Page " ++ toString n ++ "]"
  | none => "[Unknown Page]"

/-- Models the assembly part of `get_context_for_question`: the fixed
sentinel on an empty retrieval list, otherwise the page-tagged chunks joined
by a blank line, in retrieval order. -/
def combine_chunks (similar : List DocumentChunk) : String :=
  if similar.isEmpty then "No relevant context found in the document."
  else pyJoin ("\n\n") (similar.map (fun c => page_info c ++ " " ++ c.content))

/-! ## Keyword search ordering

Python's `list.sort(key=lambda x: x[1], reverse=True)` is a stable sort into
descending score order; `List.insertionSort` with this relation is stable in
the same sense (an element is inserted before the first element of no larger
score), so it computes the same list. -/

/-- `x` may be placed before `y` in the descending stable sort of
`(chunk, score)` pairs. -/
def score_before (x y : DocumentChunk × Nat) : Prop := y.2 ≤ x.2

instance : DecidableRel score_before :=
  fun x y => inferInstanceAs (Decidable (y.2 ≤ x.2))

/-! ## The HealthLink text-search service (`HealthLink/app/services/embeddings.py`) -/

namespace HL

/-- The per-instance state of the HealthLink `EmbeddingService`. -/
structure ServiceState where
  chunks : List DocumentChunk

/-- Models `EmbeddingService.create_vector_index`: the `try` body is a plain
assignment and cannot fail, so the `except` re-raise is dead code. -/
def create_vector_index (chunks : List DocumentChunk) : Except String ServiceState :=
  Except.ok ⟨chunks⟩

/-- Models the scoring loop of `search_similar_chunks`: pairs each chunk of
positive overlap with its score, in stored order. -/
def scored_chunks (chunks : List DocumentChunk) (query : String) : List (DocumentChunk × Nat) :=
  match chunks with
  | [] => []
  | c :: cs =>
      if 0 < overlapScore query c.content then
        (c, overlapScore query c.content) :: scored_chunks cs query
      else scored_chunks cs query

/-- Models the padding loop of `search_similar_chunks`: walk the stored
chunks, appending those whose `chunk_id` is not among `used` while fewer
than `top_k` are selected.  (`used_chunk_ids` is computed once, before the
loop, in the source.) -/
def pad_chunks (top_k : Nat) (used : List Int) : List DocumentChunk → List DocumentChunk → List DocumentChunk
  | [], sel => sel
  | c :: pool, sel =>
      if c.chunk_id ∉ used ∧ sel.length < top_k then pad_chunks top_k used pool (sel ++ [c])
      else pad_chunks top_k used pool sel

/-- Models `EmbeddingService.search_similar_chunks` (keyword matching). -/
def search_similar_chunks (st : ServiceState) (query : String) (top_k : Nat) :
    Except String (List DocumentChunk) :=
  if st.chunks.isEmpty then
    Except.error ("Failed to search similar chunks: Text index not initialized. Create index first.")
  else
    let sorted := List.insertionSort score_before (scored_chunks st.chunks query)
    let similar := (sorted.take top_k).map Prod.fst
    let result :=
      if similar.length < top_k then
        pad_chunks top_k (similar.map (fun c => c.chunk_id)) st.chunks similar
      else similar
    Except.ok (result.take top_k)

/-- Models `EmbeddingService.get_context_for_question`. -/
def get_context_for_question (st : ServiceState) (question : String) (top_k : Nat) :
    Except String String :=
  match search_similar_chunks st question top_k with
  | Except.error e => Except.error ("Failed to get context for question: " ++ e)
  | Except.ok similar => Except.ok (combine_chunks similar)

/-- Models `EmbeddingService.clear_index`. -/
def clear_index (_st : ServiceState) : ServiceState := ⟨[]⟩

end HL

/-! ## The semantic search service (`app/services/embeddings.py`) -/

namespace App

/-- The per-instance state of the semantic `EmbeddingService`: the stored
chunks and the parallel list of stored embedding vectors. -/
structure ServiceState where
  chunks : List DocumentChunk
  embeddings : List (List ℝ)

/-- The `[0.0] * 768` fallback vector of `create_vector_index`. -/
def zero_vector : List ℝ := List.replicate 768 0

/-- Squared L2 norm of a vector. -/
def norm_sq (v : List ℝ) : ℝ := (v.map (fun x => x * x)).sum

/-- Models `embedding_array / np.linalg.norm(embedding_array)`. -/
noncomputable def normalize_vec (v : List ℝ) : List ℝ :=
  v.map (fun x => x / Real.sqrt (norm_sq v))

/-- One iteration of the embedding loop of `create_vector_index`: a truthy
provider embedding is stored unit-normalized, a failed (`None`) or falsy
(empty) one is replaced by the 768-dimensional zero vector. -/
noncomputable def embed_one (get_embedding : String → Option (List ℝ))
    (c : DocumentChunk) : List ℝ :=
  match get_embedding c.content with
  | some e => if e.isEmpty then zero_vector else normalize_vec e
  | none => zero_vector

/-- Models `EmbeddingService.create_vector_index`.  The oracle
`get_embedding` models `_get_embedding`, which returns `None` when the
provider call fails (it catches its own exceptions). -/
noncomputable def create_vector_index (get_embedding : String → Option (List ℝ))
    (chunks : List DocumentChunk) : ServiceState :=
  ⟨chunks, chunks.map (embed_one get_embedding)⟩

/-- Models `np.dot` on the idealised vectors. -/
def dot_product (v w : List ℝ) : ℝ := (List.zipWith (fun a b => a * b) v w).sum

/-- `x` may be placed before `y` in the descending stable sort of
`(chunk, similarity)` pairs. -/
def sim_before (x y : DocumentChunk × ℝ) : Prop := y.2 ≤ x.2

noncomputable instance : DecidableRel sim_before :=
  fun x y => inferInstanceAs (Decidable (y.2 ≤ x.2))

/-- Scoring loop of the keyword fallback of `search_similar_chunks`
(line-for-line the same code as in the HealthLink service). -/
def scored_chunks (chunks : List DocumentChunk) (query : String) : List (DocumentChunk × Nat) :=
  match chunks with
  | [] => []
  | c :: cs =>
      if 0 < overlapScore query c.content then
        (c, overlapScore query c.content) :: scored_chunks cs query
      else scored_chunks cs query

/-- Padding loop of the keyword fallback of `search_similar_chunks`. -/
def pad_chunks (top_k : Nat) (used : List Int) : List DocumentChunk → List DocumentChunk → List DocumentChunk
  | [], sel => sel
  | c :: pool, sel =>
      if c.chunk_id ∉ used ∧ sel.length < top_k then pad_chunks top_k used pool (sel ++ [c])
      else pad_chunks top_k used pool sel

/-- The keyword fallback branch of `search_similar_chunks`. -/
def keyword_fallback (st : ServiceState) (query : String) (top_k : Nat) : List DocumentChunk :=
  let sorted := List.insertionSort score_before (scored_chunks st.chunks query)
  let similar := (sorted.take top_k).map Prod.fst
  let result :=
    if similar.length < top_k then
      pad_chunks top_k (similar.map (fun c => c.chunk_id)) st.chunks similar
    else similar
  result.take top_k

/-- Models `EmbeddingService.search_similar_chunks`: the semantic path runs
only when the stored embedding list is non-empty and parallel to the chunk
list and the query embedding is truthy; otherwise the keyword fallback
runs. -/
noncomputable def search_similar_chunks (get_embedding : String → Option (List ℝ))
    (st : ServiceState) (query : String) (top_k : Nat) : Except String (List DocumentChunk) :=
  if st.chunks.isEmpty then
    Except.error ("Failed to search similar chunks: Index not initialized. Create index first.")
  else if st.embeddings.isEmpty = false ∧ st.embeddings.length = st.chunks.length then
    match get_embedding query with
    | some qe =>
        if qe.isEmpty then Except.ok (keyword_fallback st query top_k)
        else
          let qn := normalize_vec qe
          let sims := (st.chunks.zip st.embeddings).map (fun p => (p.1, dot_product qn p.2))
          let sorted := List.insertionSort sim_before sims
          Except.ok ((sorted.take top_k).map Prod.fst)
    | none => Except.ok (keyword_fallback st query top_k)
  else Except.ok (keyword_fallback st query top_k)

/-- Models `EmbeddingService.get_context_for_question` of the semantic
service. -/
noncomputable def get_context_for_question (get_embedding : String → Option (List ℝ))
    (st : ServiceState) (question : String) (top_k : Nat) : Except String String :=
  match search_similar_chunks get_embedding st question top_k with
  | Except.error e => Except.error ("Failed to get context for question: " ++ e)
  | Except.ok similar => Except.ok (combine_chunks similar)

/-- Models `EmbeddingService.clear_index`. -/
def clear_index (_st : ServiceState) : ServiceState := ⟨[], []⟩

end App

/-! ## Answer generation and orchestration (`app/services/qa_service.py`) -/

namespace QA

/-- The not-found sentinel. -/
def not_found : String := "Not found in document"

/-- Models the prompt f-string of `QAService._generate_answer`. -/
def build_prompt (question context : String) : String :=
  "Answer the question using only the provided context.\n" ++
  "If the answer is not in the context, reply \"Not found in document\".\n" ++
  "Do not add any explanations, citations, or additional information.\n" ++
  "Provide only the direct answer.\n\nContext:\n" ++ context ++
  "\n\nQuestion:\n" ++ question ++ "\n\nAnswer:"

/-- Models `QAService._generate_answer`.  The oracle `call_model` models the
generative-model call: `Except.error` for a raised exception, `Except.ok
none` for a `None` response text, `Except.ok (some t)` for text `t`.  A
failure or falsy text yields the sentinel; a leading `"Answer:"` label
(case-insensitively) is stripped. -/
def generate_answer (call_model : String → Except String (Option String))
    (question context : String) : String :=
  match call_model (build_prompt question context) with
  | Except.error _ => not_found
  | Except.ok none => not_found
  | Except.ok (some t) =>
      if t = "" then not_found
      else
        let answer := pyStrip t
        if ("answer:").data.isPrefixOf (pyLower answer).data then
          pyStrip (String.mk (answer.data.drop 7))
        else answer

/-- One iteration of the question loop of `process_qa_request`: retrieval
failures are absorbed into the sentinel by the loop's `except`; generation
failures are absorbed inside `_generate_answer`. -/
noncomputable def answer_question (get_embedding : String → Option (List ℝ))
    (call_model : String → Except String (Option String))
    (st : App.ServiceState) (question : String) : String :=
  match App.get_context_for_question get_embedding st question TOP_K_CHUNKS with
  | Except.error _ => not_found
  | Except.ok context => generate_answer call_model question context

/-- The question loop of `process_qa_request`, appending one answer per
question. -/
noncomputable def answer_loop (get_embedding : String → Option (List ℝ))
    (call_model : String → Except String (Option String))
    (st : App.ServiceState) : List String → List String
  | [] => []
  | q :: qs =>
      answer_question get_embedding call_model st q ::
        answer_loop get_embedding call_model st qs

/-- Models `QAService.process_qa_request`.  `pdf_result` is the outcome of
`process_pdf` (the acquisition / chunking stages); `get_doc_embedding` and
`get_query_embedding` model the embedding provider for the two task types;
`call_model` models the generative model; `st0` is the embedding service
state on entry.  Returns the response (or the propagated error) together
with the embedding service state on exit. -/
noncomputable def process_qa_request (pdf_result : Except String (List DocumentChunk))
    (get_doc_embedding get_query_embedding : String → Option (List ℝ))
    (call_model : String → Except String (Option String))
    (questions : List String) (st0 : App.ServiceState) :
    Except String QAResponse × App.ServiceState :=
  match pdf_result with
  | Except.error e => (Except.error e, App.clear_index st0)
  | Except.ok chunks =>
      let st1 := App.create_vector_index get_doc_embedding chunks
      let answers := answer_loop get_query_embedding call_model st1 questions
      (Except.ok ⟨answers⟩, App.clear_index st1)

end QA

/-! ## Spec-side definitions

Definitions written from the words of the specification, to be compared
with the definitions translated from the source. -/

/-- From the spec of context assembly, as amended: `[Page N]` for a present
non-zero page number, `[Unknown Page]` otherwise, retrieval order, blank
line separators, fixed sentinel for the empty list. -/
def combine_chunks_spec (similar : List DocumentChunk) : String :=
  if similar.isEmpty then "No relevant context found in the document."
  else
    pyJoin ("\n\n") (similar.map (fun c =>
      match c.page_number with
      | none => "[Unknown Page] " ++ c.content
      | some n =>
          if n = 0 then "[Unknown Page] " ++ c.content
          else "[Page " ++ toString n ++ "] " ++ c.content))

/-! ## Lemmas about the semantic index build (for C2) -/

theorem norm_sq_nonneg (v : List ℝ) : 0 ≤ App.norm_sq v := by
  refine List.sum_nonneg ?_
  intro x hx
  obtain ⟨y, _, rfl⟩ := List.mem_map.mp hx
  exact mul_self_nonneg y

theorem norm_sq_map_div (v : List ℝ) (s : ℝ) :
    App.norm_sq (v.map (fun x => x / s)) = App.norm_sq v / (s * s) := by
  induction v with
  | nil => simp [App.norm_sq]
  | cons x xs ih =>
      simp only [App.norm_sq, List.map_map, List.map_cons, List.sum_cons] at ih ⊢
      rw [ih]
      rw [div_mul_div_comm, div_add_div_same]

/-- A successfully embedded vector of non-zero norm is stored unit-normalized. -/
theorem norm_sq_normalize (v : List ℝ) (h : App.norm_sq v ≠ 0) :
    App.norm_sq (App.normalize_vec v) = 1 := by
  unfold App.normalize_vec
  rw [norm_sq_map_div, Real.mul_self_sqrt (norm_sq_nonneg v), div_self h]

theorem norm_sq_zero_vector : App.norm_sq App.zero_vector = 0 := by
  rw [App.norm_sq, App.zero_vector, List.map_replicate, List.sum_replicate]
  simp

/-! ## Lemmas about chunking (for C5, C6, C10) -/

/-- Total number of windows kept over a page list. -/
def num_windows (pages : List (String × Int)) : Nat :=
  (pages.map (fun tp => (PDF.page_windows (pySplit tp.1)).length)).sum

theorem emit_windows_length (p : Int) (ws : List String) : ∀ nid : Int,
    (PDF.emit_windows p nid ws).length = ws.length := by
  induction ws with
  | nil => intro nid; rfl
  | cons w ws ih =>
      intro nid
      simp only [PDF.emit_windows, List.length_cons, ih (nid + 1)]

theorem emit_windows_map_id (p : Int) (ws : List String) : ∀ nid : Int,
    (PDF.emit_windows p nid ws).map (fun c => c.chunk_id)
      = (List.range ws.length).map (fun j : Nat => nid + (j : Int)) := by
  induction ws with
  | nil => intro nid; rfl
  | cons w ws ih =>
      intro nid
      simp only [PDF.emit_windows, List.map_cons, List.length_cons, List.range_succ_eq_map,
        ih (nid + 1), List.map_map]
      refine congrArg₂ List.cons (by simp) (List.map_congr_left ?_)
      intro j _
      simp only [Function.comp_apply]
      push_cast
      ring

theorem chunk_pages_length (pages : List (String × Int)) : ∀ nid : Int,
    (PDF.chunk_pages pages nid).length = num_windows pages := by
  induction pages with
  | nil => intro nid; rfl
  | cons tp rest ih =>
      intro nid
      obtain ⟨t, p⟩ := tp
      simp only [PDF.chunk_pages, List.length_append, emit_windows_length, ih, num_windows,
        List.map_cons, List.sum_cons]

theorem chunk_pages_map_id (pages : List (String × Int)) : ∀ nid : Int,
    (PDF.chunk_pages pages nid).map (fun c => c.chunk_id)
      = (List.range (num_windows pages)).map (fun j : Nat => nid + (j : Int)) := by
  induction pages with
  | nil => intro nid; rfl
  | cons tp rest ih =>
      intro nid
      obtain ⟨t, p⟩ := tp
      simp only [PDF.chunk_pages, List.map_append, emit_windows_map_id, ih]
      have hnw : num_windows ((t, p) :: rest)
          = (PDF.page_windows (pySplit t)).length + num_windows rest := by
        simp [num_windows]
      rw [hnw, List.range_add, List.map_append, List.map_map]
      refine congrArg₂ (· ++ ·) rfl (List.map_congr_left ?_)
      intro j _
      simp only [Function.comp_apply]
      push_cast
      ring

/-- C6: across any page sequence, the emitted `chunk_id`s form the global
sequence `0, 1, 2, …` in emission order (page order, then window order) —
in particular they are unique and strictly increasing. -/
theorem chunk_ids_global (text_pages : List (String × Int)) :
    (PDF.chunk_text text_pages).map (fun c => c.chunk_id)
      = (List.range (PDF.chunk_text text_pages).length).map (fun j : Nat => (j : Int))
    ∧ ((PDF.chunk_text text_pages).map (fun c => c.chunk_id)).Pairwise (· < ·) := by
  have hlen : (PDF.chunk_text text_pages).length = num_windows text_pages :=
    chunk_pages_length text_pages 0
  have hmap : (PDF.chunk_text text_pages).map (fun c => c.chunk_id)
      = (List.range (num_windows text_pages)).map (fun j : Nat => (j : Int)) := by
    rw [PDF.chunk_text, chunk_pages_map_id]
    exact List.map_congr_left (fun j _ => by omega)
  constructor
  · rw [hmap, hlen]
  · rw [hmap]
    exact List.Pairwise.map (fun j : Nat => (j : Int))
      (fun a b h => show (a : Int) < (b : Int) by exact_mod_cast h)
      (List.pairwise_lt_range _)

/-- A page of between 400 and 700 words yields exactly the two windows
`words[0:400]` and `words[350:]`. -/
theorem page_windows_med (w : List String) (n : Nat) (hl : w.length = n)
    (h4 : 400 ≤ n) (h7 : n ≤ 700) :
    PDF.page_windows w = [joinWords (w.take 400), joinWords (w.drop 350)] := by
  unfold PDF.page_windows
  have hr : PDF.pyRangeIdx w.length (CHUNK_SIZE - CHUNK_OVERLAP) = [0, 350] := by
    unfold PDF.pyRangeIdx CHUNK_SIZE CHUNK_OVERLAP
    rw [hl]
    have h2 : (n + (400 - 50) - 1) / (400 - 50) = 2 := by omega
    rw [h2]
    rfl
  rw [hr]
  have hw1 : (w.drop 0).take CHUNK_SIZE = w.take 400 := by rw [List.drop_zero]; rfl
  have hw2 : (w.drop 350).take CHUNK_SIZE = w.drop 350 :=
    List.take_of_length_le
      (show (w.drop 350).length ≤ CHUNK_SIZE by
        rw [List.length_drop, hl]; unfold CHUNK_SIZE; omega)
  have hl1 : (w.take 400).length = 400 := by rw [List.length_take]; omega
  have hl2 : (w.drop 350).length = n - 350 := by rw [List.length_drop, hl]
  simp only [List.filterMap_cons, List.filterMap_nil, hw1, hw2, hl1, hl2]
  rw [if_neg (by omega : ¬ (400 < 10)), if_neg (by omega : ¬ (n - 350 < 10))]

theorem page_windows_nil : PDF.page_windows [] = [] := rfl

/-- C5: a document of three pages of 500, 0 and 450 words (chunking settings
400/50, step 350) yields two chunks from page 1 (`words[0:400]`,
`words[350:500]`), none from the blank page, two from page 3, with the
chunk ids `0, 1, 2, 3` in page order. -/
theorem chunk_text_scenario (p1 pb p3 : String) (w1 w3 : List String)
    (h1 : pySplit p1 = w1) (h1l : w1.length = 500)
    (hb : pySplit pb = [])
    (h3 : pySplit p3 = w3) (h3l : w3.length = 450) :
    PDF.chunk_text [(p1, 1), (pb, 2), (p3, 3)] =
      [⟨joinWords (w1.take 400), 0, some 1, none⟩,
       ⟨joinWords (w1.drop 350), 1, some 1, none⟩,
       ⟨joinWords (w3.take 400), 2, some 3, none⟩,
       ⟨joinWords (w3.drop 350), 3, some 3, none⟩] := by
  unfold PDF.chunk_text
  simp only [PDF.chunk_pages, h1, hb, h3]
  rw [page_windows_med w1 500 h1l (by norm_num) (by norm_num),
    page_windows_med w3 450 h3l (by norm_num) (by norm_num), page_windows_nil]
  simp [PDF.emit_windows]

/-! ## Splitting a join of words recovers the words (for the C5 witness) -/

theorem mk_data (s : String) : String.mk s.data = s := rfl

theorem splitWordsAux_word (w : List Char) (cs acc : List Char)
    (hw : ∀ c ∈ w, c.isWhitespace = false) :
    splitWordsAux (w ++ cs) acc = splitWordsAux cs (w.reverse ++ acc) := by
  induction w generalizing acc with
  | nil => simp
  | cons c w ih =>
      have hc : c.isWhitespace = false := hw c (List.Mem.head _)
      simp only [List.cons_append, splitWordsAux, hc, Bool.false_eq_true, if_false,
        List.append_eq]
      rw [ih (c :: acc) (fun d hd => hw d (List.Mem.tail _ hd))]
      simp

theorem pySplit_joinWords (ws : List String)
    (h : ∀ s ∈ ws, s.data ≠ [] ∧ ∀ c ∈ s.data, c.isWhitespace = false) :
    pySplit (joinWords ws) = ws := by
  induction ws with
  | nil => rfl
  | cons w rest ih =>
      obtain ⟨hwne, hwgood⟩ := h w (List.Mem.head _)
      cases rest with
      | nil =>
          show pySplit w = [w]
          unfold pySplit
          rw [show w.data = w.data ++ [] by simp, splitWordsAux_word w.data [] [] hwgood]
          simp only [splitWordsAux, List.append_nil, List.isEmpty_eq_true, List.reverse_eq_nil_iff]
          rw [if_neg hwne]
          simp [mk_data]
      | cons x rest' =>
          have hdata : (joinWords (w :: x :: rest')).data
              = w.data ++ (' ' :: (joinWords (x :: rest')).data) := by
            show ((w ++ " ") ++ joinWords (x :: rest')).data = _
            rw [String.data_append, String.data_append]
            simp
          unfold pySplit
          rw [hdata, splitWordsAux_word w.data _ [] hwgood]
          have hsp : (' ' : Char).isWhitespace = true := rfl
          simp only [splitWordsAux, hsp, if_true, List.append_nil, List.isEmpty_eq_true,
            List.reverse_eq_nil_iff]
          rw [if_neg hwne]
          simp only [List.reverse_reverse, List.map_cons, mk_data]
          exact congrArg _ (ih (fun s hs => h s (List.Mem.tail _ hs)))

def words500 : List String := List.replicate 500 ("w")

def words450 : List String := List.replicate 450 ("w")

def pageA : String := joinWords words500

def pageC : String := joinWords words450

theorem replicate_w_good (n : Nat) :
    ∀ s ∈ List.replicate n ("w"), s.data ≠ [] ∧ ∀ c ∈ s.data, c.isWhitespace = false := by
  intro s hs
  rw [List.eq_of_mem_replicate hs]
  exact ⟨by decide, by decide⟩

/-! ## The keyword-mode top-K specification (for C4) -/

/-- The claim's ranking of scored pairs: strictly larger overlap first, ties
in ascending `chunk_id` order. -/
def lex_before (x y : DocumentChunk × Nat) : Prop :=
  y.2 < x.2 ∨ (x.2 = y.2 ∧ x.1.chunk_id ≤ y.1.chunk_id)

instance : DecidableRel lex_before :=
  fun x y => inferInstanceAs (Decidable (y.2 < x.2 ∨ (x.2 = y.2 ∧ x.1.chunk_id ≤ y.1.chunk_id)))

/-- Ascending `chunk_id` order. -/
def id_le (a b : DocumentChunk) : Prop := a.chunk_id ≤ b.chunk_id

instance : DecidableRel id_le :=
  fun a b => inferInstanceAs (Decidable (a.chunk_id ≤ b.chunk_id))

/-- The claim's description of keyword-mode `topK`: the positively scoring
chunks sorted by descending overlap with ties in ascending `chunk_id`,
followed by the remaining chunks in ascending `chunk_id` order, truncated
to `k`. -/
def top_k_keyword_spec (pool : List DocumentChunk) (query : String) (k : Nat) :
    List DocumentChunk :=
  ((List.insertionSort lex_before (HL.scored_chunks pool query)).map Prod.fst
    ++ List.insertionSort id_le (pool.filter (fun c => overlapScore query c.content = 0))).take k

/-! ## Lemmas about keyword-mode search (for C4, C9) -/

theorem scored_chunks_eq_filter_map (pool : List DocumentChunk) (query : String) :
    HL.scored_chunks pool query
      = (pool.filter (fun c => 0 < overlapScore query c.content)).map
          (fun c => (c, overlapScore query c.content)) := by
  induction pool with
  | nil => rfl
  | cons c pool ih =>
      by_cases hc : 0 < overlapScore query c.content
      · rw [HL.scored_chunks, if_pos hc, ih,
          List.filter_cons_of_pos (by simpa using hc), List.map_cons]
      · rw [HL.scored_chunks, if_neg hc, ih,
          List.filter_cons_of_neg (by simpa using hc)]

theorem orderedInsert_score_lex (x : DocumentChunk × Nat) (m : List (DocumentChunk × Nat))
    (hx : ∀ y ∈ m, x.1.chunk_id < y.1.chunk_id) :
    List.orderedInsert score_before x m = List.orderedInsert lex_before x m := by
  induction m with
  | nil => rfl
  | cons y m ih =>
      have hxy := hx y (List.Mem.head _)
      by_cases h : score_before x y
      · have hlex : lex_before x y := by
          rcases lt_or_eq_of_le h with h' | h'
          · exact Or.inl h'
          · exact Or.inr ⟨h'.symm, le_of_lt hxy⟩
        rw [List.orderedInsert, List.orderedInsert, if_pos h, if_pos hlex]
      · have hlex : ¬ lex_before x y := by
          rintro (h' | ⟨h', _⟩)
          · exact h (le_of_lt h')
          · exact h (le_of_eq h'.symm)
        rw [List.orderedInsert, List.orderedInsert, if_neg h, if_neg hlex]
        exact congrArg _ (ih (fun z hz => hx z (List.Mem.tail _ hz)))

theorem insertionSort_score_lex (S : List (DocumentChunk × Nat))
    (hS : S.Pairwise (fun a b => a.1.chunk_id < b.1.chunk_id)) :
    List.insertionSort score_before S = List.insertionSort lex_before S := by
  induction S with
  | nil => rfl
  | cons x S ih =>
      rw [List.insertionSort, List.insertionSort]
      rw [ih (List.Pairwise.of_cons hS)]
      apply orderedInsert_score_lex
      intro y hy
      exact (List.pairwise_cons.mp hS).1 y ((List.perm_insertionSort lex_before S).subset hy)

theorem pad_chunks_spec (k : Nat) (used : List Int) (pool : List DocumentChunk) :
    ∀ sel, sel.length ≤ k →
    HL.pad_chunks k used pool sel
      = sel ++ (pool.filter (fun c => c.chunk_id ∉ used)).take (k - sel.length) := by
  induction pool with
  | nil => intro sel _; simp [HL.pad_chunks]
  | cons c pool ih =>
      intro sel hsel
      by_cases hid : c.chunk_id ∉ used
      · have hf : (c :: pool).filter (fun d => d.chunk_id ∉ used)
            = c :: pool.filter (fun d => d.chunk_id ∉ used) :=
          List.filter_cons_of_pos (by simpa using hid)
        by_cases hlen : sel.length < k
        · rw [HL.pad_chunks, if_pos ⟨hid, hlen⟩, ih (sel ++ [c]) (by simp; omega), hf]
          have hlc : (sel ++ [c]).length = sel.length + 1 := by simp
          rw [hlc, show k - sel.length = (k - (sel.length + 1)) + 1 by omega,
            List.take_succ_cons]
          simp
        · have hk : k - sel.length = 0 := by omega
          rw [HL.pad_chunks, if_neg (by rintro ⟨_, h⟩; exact hlen h), ih sel hsel, hk]
          simp
      · have hf : (c :: pool).filter (fun d => d.chunk_id ∉ used)
            = pool.filter (fun d => d.chunk_id ∉ used) :=
          List.filter_cons_of_neg (by simpa using hid)
        rw [HL.pad_chunks, if_neg (by rintro ⟨h, _⟩; exact hid h), ih sel hsel, hf]

theorem ids_nodup_of_asc {pool : List DocumentChunk}
    (hasc : pool.Pairwise (fun a b => a.chunk_id < b.chunk_id)) :
    (pool.map (fun c => c.chunk_id)).Nodup := by
  have h := List.Pairwise.map (fun c : DocumentChunk => c.chunk_id) (fun a b hab => hab) hasc
  exact h.imp ne_of_lt

theorem search_similar_chunks_eq_spec (pool : List DocumentChunk) (query : String) (k : Nat)
    (hasc : pool.Pairwise (fun a b => a.chunk_id < b.chunk_id))
    (hne : 0 < pool.length) :
    HL.search_similar_chunks ⟨pool⟩ query k = Except.ok (top_k_keyword_spec pool query k) := by
  have hidsNodup := ids_nodup_of_asc hasc
  have hinj : ∀ x ∈ pool, ∀ y ∈ pool, x.chunk_id = y.chunk_id → x = y :=
    fun x hx y hy h => List.inj_on_of_nodup_map hidsNodup hx hy h
  have hSeq := scored_chunks_eq_filter_map pool query
  have hS_pair : (HL.scored_chunks pool query).Pairwise
      (fun a b => a.1.chunk_id < b.1.chunk_id) := by
    rw [hSeq]
    exact List.Pairwise.map _ (fun a b h => h) (hasc.filter _)
  have hsorteq := insertionSort_score_lex (HL.scored_chunks pool query) hS_pair
  have hLlen : (List.insertionSort lex_before (HL.scored_chunks pool query)).length
      = (HL.scored_chunks pool query).length :=
    List.length_insertionSort lex_before _
  have hSlen : (HL.scored_chunks pool query).length
      = (pool.filter (fun c => 0 < overlapScore query c.content)).length := by
    rw [hSeq, List.length_map]
  have hN_sorted : List.insertionSort id_le
        (pool.filter (fun c => overlapScore query c.content = 0))
      = pool.filter (fun c => overlapScore query c.content = 0) :=
    List.Sorted.insertionSort_eq ((hasc.filter _).imp (fun h => le_of_lt h))
  have hne' : pool.isEmpty = false := by
    cases pool with
    | nil => simp at hne
    | cons a l => rfl
  simp only [HL.search_similar_chunks, hne', Bool.false_eq_true, if_false, hsorteq,
    top_k_keyword_spec]
  by_cases hcase :
      (((List.insertionSort lex_before (HL.scored_chunks pool query)).take k).map
        Prod.fst).length < k
  · -- fewer than k positive chunks: the padding loop runs
    rw [if_pos hcase]
    have hSk : (HL.scored_chunks pool query).length < k := by
      rw [List.length_map, List.length_take, hLlen] at hcase
      omega
    have htakeL : (List.insertionSort lex_before (HL.scored_chunks pool query)).take k
        = List.insertionSort lex_before (HL.scored_chunks pool query) :=
      List.take_of_length_le (by omega)
    rw [htakeL]
    rw [pad_chunks_spec k _ pool _ (by rw [List.length_map, hLlen]; omega)]
    have hused : ∀ c ∈ pool,
        (decide (c.chunk_id ∉
          (((List.insertionSort lex_before (HL.scored_chunks pool query)).map
            Prod.fst).map (fun c => c.chunk_id))))
        = (decide (overlapScore query c.content = 0)) := by
      intro c hc
      have hmem : c.chunk_id ∈
          (((List.insertionSort lex_before (HL.scored_chunks pool query)).map
            Prod.fst).map (fun c => c.chunk_id))
          ↔ 0 < overlapScore query c.content := by
        constructor
        · intro h
          obtain ⟨d, hd, hdid⟩ := List.mem_map.mp h
          obtain ⟨p, hp, rfl⟩ := List.mem_map.mp hd
          have hpS := (List.perm_insertionSort lex_before _).subset hp
          rw [hSeq] at hpS
          obtain ⟨d', hd', rfl⟩ := List.mem_map.mp hpS
          have hd'pool : d' ∈ pool := List.mem_of_mem_filter hd'
          have : d' = c := hinj d' hd'pool c hc hdid
          subst this
          simpa using List.of_mem_filter hd'
        · intro h
          have hcP : c ∈ pool.filter (fun c => 0 < overlapScore query c.content) :=
            List.mem_filter.mpr ⟨hc, by simpa using h⟩
          have hcS : (c, overlapScore query c.content) ∈ HL.scored_chunks pool query := by
            rw [hSeq]
            exact List.mem_map.mpr ⟨c, hcP, rfl⟩
          have hcL := (List.perm_insertionSort lex_before
            (HL.scored_chunks pool query)).mem_iff.mpr hcS
          exact List.mem_map.mpr ⟨c, List.mem_map.mpr ⟨_, hcL, rfl⟩, rfl⟩
      rw [decide_eq_decide]
      constructor
      · intro hnotmem
        have h0 : ¬ 0 < overlapScore query c.content := fun h => hnotmem (hmem.mpr h)
        omega
      · intro h0 hmem'
        have := hmem.mp hmem'
        omega
    rw [List.filter_congr hused]
    have hlen2 : ((List.insertionSort lex_before (HL.scored_chunks pool query)).map
        Prod.fst).length = (HL.scored_chunks pool query).length := by
      rw [List.length_map, hLlen]
    have htot : (((List.insertionSort lex_before (HL.scored_chunks pool query)).map
          Prod.fst)
        ++ (pool.filter (fun c => overlapScore query c.content = 0)).take
            (k - ((List.insertionSort lex_before (HL.scored_chunks pool query)).map
              Prod.fst).length)).length ≤ k := by
      rw [List.length_append, hlen2, List.length_take]
      omega
    rw [List.take_of_length_le htot]
    rw [hN_sorted, List.take_append_eq_append_take,
      List.take_of_length_le (show ((List.insertionSort lex_before
        (HL.scored_chunks pool query)).map Prod.fst).length ≤ k by rw [hlen2]; omega)]
  · -- at least k positive chunks: no padding
    rw [if_neg hcase]
    rw [List.length_map, List.length_take, hLlen] at hcase
    have hSk : k ≤ (HL.scored_chunks pool query).length := by omega
    rw [List.take_append_eq_append_take]
    have hk0 : k - ((List.insertionSort lex_before
        (HL.scored_chunks pool query)).map Prod.fst).length = 0 := by
      rw [List.length_map, hLlen]
      omega
    rw [hk0, List.take_zero, List.append_nil, ← List.map_take, ← List.map_take,
      List.take_take, Nat.min_self]

theorem top_k_keyword_spec_props (pool : List DocumentChunk) (query : String) (k : Nat)
    (hasc : pool.Pairwise (fun a b => a.chunk_id < b.chunk_id)) :
    (top_k_keyword_spec pool query k).Nodup
    ∧ (∀ c ∈ top_k_keyword_spec pool query k, c ∈ pool)
    ∧ (top_k_keyword_spec pool query k).length = min k pool.length := by
  have hidsNodup := ids_nodup_of_asc hasc
  have hpoolNodup : pool.Nodup := List.Nodup.of_map _ hidsNodup
  have hSeq := scored_chunks_eq_filter_map pool query
  have hN_sorted : List.insertionSort id_le
        (pool.filter (fun c => overlapScore query c.content = 0))
      = pool.filter (fun c => overlapScore query c.content = 0) :=
    List.Sorted.insertionSort_eq ((hasc.filter _).imp (fun h => le_of_lt h))
  have hfstP : ((List.insertionSort lex_before (HL.scored_chunks pool query)).map Prod.fst).Perm
      (pool.filter (fun c => 0 < overlapScore query c.content)) := by
    have h1 := (List.perm_insertionSort lex_before (HL.scored_chunks pool query)).map Prod.fst
    have h2 : (HL.scored_chunks pool query).map Prod.fst
        = pool.filter (fun c => 0 < overlapScore query c.content) := by
      rw [hSeq, List.map_map]
      rw [show (Prod.fst ∘ fun c : DocumentChunk => (c, overlapScore query c.content)) = id
        from rfl, List.map_id]
    rw [h2] at h1
    exact h1
  have hXnodup : ((List.insertionSort lex_before
      (HL.scored_chunks pool query)).map Prod.fst).Nodup :=
    hfstP.symm.nodup (hpoolNodup.filter _)
  have hNnodup : (pool.filter (fun c => overlapScore query c.content = 0)).Nodup :=
    hpoolNodup.filter _
  have hdisj : ((List.insertionSort lex_before
      (HL.scored_chunks pool query)).map Prod.fst).Disjoint
      (pool.filter (fun c => overlapScore query c.content = 0)) := by
    intro c hcX hcN
    have h1 := List.of_mem_filter (hfstP.subset hcX)
    have h2 := List.of_mem_filter hcN
    simp at h1 h2
    omega
  have happ : (((List.insertionSort lex_before (HL.scored_chunks pool query)).map Prod.fst)
      ++ pool.filter (fun c => overlapScore query c.content = 0)).Nodup :=
    List.Nodup.append hXnodup hNnodup hdisj
  refine ⟨?_, ?_, ?_⟩
  · rw [top_k_keyword_spec, hN_sorted]
    exact List.Nodup.sublist (List.take_sublist _ _) happ
  · intro c hc
    rw [top_k_keyword_spec, hN_sorted] at hc
    rcases List.mem_append.mp (List.take_subset _ _ hc) with h | h
    · exact List.mem_of_mem_filter (hfstP.subset h)
    · exact List.mem_of_mem_filter h
  · have hfun : (fun c : DocumentChunk => decide (overlapScore query c.content = 0))
        = (fun c : DocumentChunk => !(decide (0 < overlapScore query c.content))) := by
      funext c
      by_cases h : overlapScore query c.content = 0
      · simp [h]
      · have hpos : 0 < overlapScore query c.content := Nat.pos_of_ne_zero h
        simp [h, hpos]
    have hpart : (pool.filter (fun c => 0 < overlapScore query c.content)).length
        + (pool.filter (fun c => overlapScore query c.content = 0)).length
        = pool.length := by
      rw [show (fun c : DocumentChunk => decide (overlapScore query c.content = 0))
          = (fun c : DocumentChunk => !(decide (0 < overlapScore query c.content)))
          from hfun]
      exact (List.length_eq_length_filter_add
        (fun c : DocumentChunk => decide (0 < overlapScore query c.content))).symm
    rw [top_k_keyword_spec, hN_sorted, List.length_take, List.length_append,
      List.length_map, List.length_insertionSort, hSeq, List.length_map, hpart]

/-- C4: on a built keyword-mode index whose stored chunks have unique
chunk ids in ascending order, `search_similar_chunks` returns exactly the
claim's list — the positively scoring chunks by descending overlap with
ties in ascending chunk id, followed by the remaining chunks in ascending
chunk id order, truncated to `k` — and that list has no duplicates,
contains only stored chunks, and has `min k (pool size)` elements. -/
theorem search_keyword_topk (st : HL.ServiceState) (query : String) (k : Nat)
    (hasc : st.chunks.Pairwise (fun a b => a.chunk_id < b.chunk_id))
    (hne : 0 < st.chunks.length) :
    HL.search_similar_chunks st query k = Except.ok (top_k_keyword_spec st.chunks query k)
    ∧ (top_k_keyword_spec st.chunks query k).Nodup
    ∧ (∀ c ∈ top_k_keyword_spec st.chunks query k, c ∈ st.chunks)
    ∧ (top_k_keyword_spec st.chunks query k).length = min k st.chunks.length := by
  obtain ⟨pool⟩ := st
  obtain ⟨h1, h2, h3⟩ := top_k_keyword_spec_props pool query k hasc
  exact ⟨search_similar_chunks_eq_spec pool query k hasc hne, h1, h2, h3⟩

def wchunk1 : DocumentChunk := ⟨"apple banana", 0, some 1, none⟩

def wchunk2 : DocumentChunk := ⟨"banana cherry date", 1, some 1, none⟩

def wchunk3 : DocumentChunk := ⟨"elderberry fig", 2, some 2, none⟩

/-- C4 (witness): the top-K theorem applied to a concrete three-chunk index
with query `"banana"` and `k = 2`. -/
theorem search_keyword_topk_witness :
    (([wchunk1, wchunk2, wchunk3] : List DocumentChunk).Pairwise
      (fun a b => a.chunk_id < b.chunk_id))
    ∧ 0 < ([wchunk1, wchunk2, wchunk3] : List DocumentChunk).length
    ∧ HL.search_similar_chunks ⟨[wchunk1, wchunk2, wchunk3]⟩ ("banana") 2
        = Except.ok (top_k_keyword_spec [wchunk1, wchunk2, wchunk3] ("banana") 2)
    ∧ top_k_keyword_spec [wchunk1, wchunk2, wchunk3] ("banana") 2 = [wchunk1, wchunk2] := by
  refine ⟨by decide, by decide, ?_, by rfl⟩
  exact (search_keyword_topk ⟨[wchunk1, wchunk2, wchunk3]⟩ ("banana") 2
    (by decide) (by decide)).1

/-! ## Lemmas about page provenance (for C10) -/

theorem extractPages_page_ge (pages : List String) : ∀ n0 : Int,
    ∀ tp ∈ PDF.extractPages pages n0, n0 ≤ tp.2 := by
  induction pages with
  | nil => intro n0 tp htp; simp [PDF.extractPages] at htp
  | cons t ts ih =>
      intro n0 tp htp
      simp only [PDF.extractPages] at htp
      by_cases hc : pyStrip (PDF.clean_text t) = ""
      · rw [if_pos hc] at htp
        exact le_trans (by omega) (ih (n0 + 1) tp htp)
      · rw [if_neg hc] at htp
        rcases List.mem_cons.mp htp with h | h
        · rw [h]
        · exact le_trans (by omega) (ih (n0 + 1) tp h)

theorem emit_windows_page (p : Int) (ws : List String) : ∀ nid : Int,
    ∀ c ∈ PDF.emit_windows p nid ws, c.page_number = some p := by
  induction ws with
  | nil => intro nid c hc; simp [PDF.emit_windows] at hc
  | cons w ws ih =>
      intro nid c hc
      rcases List.mem_cons.mp hc with h | h
      · rw [h]
      · exact ih (nid + 1) c h

theorem chunk_pages_page (pages : List (String × Int)) : ∀ nid : Int,
    ∀ c ∈ PDF.chunk_pages pages nid, ∃ tp ∈ pages, c.page_number = some tp.2 := by
  induction pages with
  | nil => intro nid c hc; simp [PDF.chunk_pages] at hc
  | cons tp rest ih =>
      intro nid c hc
      obtain ⟨t, p⟩ := tp
      simp only [PDF.chunk_pages] at hc
      rcases List.mem_append.mp hc with h | h
      · exact ⟨(t, p), List.Mem.head _, emit_windows_page p _ nid c h⟩
      · obtain ⟨tq, htq, hpage⟩ := ih _ c h
        exact ⟨tq, List.Mem.tail _ htq, hpage⟩

theorem page_tag_ne_unknown (t : String) : "[Page " ++ t ++ "]" ≠ "[Unknown Page]" := by
  intro h
  have hd := congrArg String.data h
  rw [String.data_append, String.data_append] at hd
  rw [show ("[Page ").data = ['[', 'P', 'a', 'g', 'e', ' '] from rfl] at hd
  rw [show ("]").data = [']'] from rfl] at hd
  rw [show ("[Unknown Page]").data
      = ['[', 'U', 'n', 'k', 'n', 'o', 'w', 'n', ' ', 'P', 'a', 'g', 'e', ']'] from rfl] at hd
  simp at hd

/-! ## Concrete data for counterexamples and witnesses -/

/-- An embedding oracle that succeeds (with a norm-5 vector) on the text
`"alpha"` and fails on everything else. -/
noncomputable def emb_oracle : String → Option (List ℝ) :=
  fun s => if s = "alpha" then some [3, 4] else none

def chunk_alpha : DocumentChunk := ⟨"alpha", 0, some 1, none⟩

def chunk_beta : DocumentChunk := ⟨"beta", 1, some 1, none⟩

/-! ## Claim theorems -/

/-- C3 (counterexample): building the index on the empty chunk list does not
signal an error in either implementation — the HealthLink build returns the
stored empty state and the semantic build returns a state with no error
channel at all. -/
theorem create_index_empty_succeeds :
    HL.create_vector_index [] = Except.ok ⟨[]⟩
    ∧ App.create_vector_index (fun _ => none) [] = ⟨[], []⟩ :=
  ⟨rfl, rfl⟩

/-- C3 (amended): building the relevance index on an empty chunk sequence
succeeds silently (the chunk store is simply set to the empty list); the
error surfaces only at query time, when searching the empty index raises
the wrapped `"Text index not initialized"` `ValueError`. -/
theorem create_index_empty_defers_error (query : String) (top_k : Nat) :
    HL.create_vector_index [] = Except.ok ⟨[]⟩
    ∧ HL.search_similar_chunks ⟨[]⟩ query top_k =
        Except.error ("Failed to search similar chunks: Text index not initialized. Create index first.") :=
  ⟨rfl, rfl⟩

/-- The page tag glued to the content equals its specified form. -/
theorem tag_eq (c : DocumentChunk) :
    page_info c ++ " " ++ c.content =
      match c.page_number with
      | none => "[Unknown Page] " ++ c.content
      | some n =>
          if n = 0 then "[Unknown Page] " ++ c.content
          else "[Page " ++ toString n ++ "] " ++ c.content := by
  obtain ⟨content, cid, pn, emb⟩ := c
  cases pn with
  | none => rfl
  | some n =>
      by_cases hn : n = 0
      · simp [page_info, hn]
      · simp only [page_info, if_neg hn]
        rw [String.append_assoc ("[Page " ++ toString n) ("]") (" ")]
        rfl

/-- C7 (counterexample): a chunk that has the page number `0` is rendered
with the `[Unknown Page]` tag, not `[Page 0]` — Python truthiness treats the
present page number `0` like an absent one. -/
theorem combine_chunks_page_zero :
    combine_chunks [⟨"x", 7, some 0, none⟩] = "[Unknown Page] x"
    ∧ combine_chunks [⟨"x", 7, some 0, none⟩] ≠ "[Page 0] x" :=
  ⟨rfl, by decide⟩

/-- C7 (amended): context assembly is a pure function of the retrieved
sequence: the fixed sentinel on the empty sequence; otherwise the chunks in
retrieval order, separated by a blank line, each prefixed `[Page N]` when a
non-zero page number is present and `[Unknown Page]` when it is absent or
zero. -/
theorem combine_chunks_correct (similar : List DocumentChunk) :
    combine_chunks similar = combine_chunks_spec similar := by
  unfold combine_chunks combine_chunks_spec
  cases similar with
  | nil => rfl
  | cons c cs =>
      simp only [List.isEmpty_cons, Bool.false_eq_true, if_false]
      exact congrArg _ (List.map_congr_left (fun a _ => tag_eq a))

/-- C8: on every exit path of `process_qa_request` — normal completion and
the error path alike — the embedding service state returned to the caller
has been cleared: empty chunk store and empty embedding store. -/
theorem process_qa_request_clears_index (pdf_result : Except String (List DocumentChunk))
    (get_doc_embedding get_query_embedding : String → Option (List ℝ))
    (call_model : String → Except String (Option String))
    (questions : List String) (st0 : App.ServiceState) :
    (QA.process_qa_request pdf_result get_doc_embedding get_query_embedding
        call_model questions st0).2.chunks = []
    ∧ (QA.process_qa_request pdf_result get_doc_embedding get_query_embedding
        call_model questions st0).2.embeddings = [] := by
  cases pdf_result <;> exact ⟨rfl, rfl⟩

/-- C2 (counterexample): after building the index over two chunks where the
provider succeeds on the first text and fails on the second, the stored
vectors are neither all usable unit-normalized embeddings nor all unusable:
the index is partially semantic. -/
theorem create_vector_index_partially_semantic :
    ¬ ((∀ v ∈ (App.create_vector_index emb_oracle [chunk_alpha, chunk_beta]).embeddings,
          App.norm_sq v = 1)
       ∨ (∀ v ∈ (App.create_vector_index emb_oracle [chunk_alpha, chunk_beta]).embeddings,
          App.norm_sq v ≠ 1)) := by
  have hemb : (App.create_vector_index emb_oracle [chunk_alpha, chunk_beta]).embeddings
      = [App.normalize_vec [3, 4], App.zero_vector] := rfl
  have h1 : App.norm_sq (App.normalize_vec [(3 : ℝ), 4]) = 1 := by
    apply norm_sq_normalize
    norm_num [App.norm_sq]
  rw [hemb]
  rintro (h | h)
  · have h0 := h App.zero_vector (by simp)
    rw [norm_sq_zero_vector] at h0
    norm_num at h0
  · exact h (App.normalize_vec [3, 4]) (by simp) h1

/-- C2 (amended): a per-chunk embedding failure does not switch the index to
keyword mode; the build stores exactly one vector per chunk (so the
semantic-mode condition `len(embeddings) == len(chunks)` still holds), the
vector being the 768-dimensional zero vector when the provider call failed
or returned a falsy embedding, and the unit-normalization of the provider
vector otherwise. -/
theorem create_vector_index_per_chunk (g : String → Option (List ℝ))
    (chunks : List DocumentChunk) :
    (App.create_vector_index g chunks).chunks = chunks
    ∧ (App.create_vector_index g chunks).embeddings.length = chunks.length
    ∧ List.Forall₂ (fun c v =>
        (g c.content = none → v = App.zero_vector)
        ∧ (∀ e, g c.content = some e → e.isEmpty = true → v = App.zero_vector)
        ∧ (∀ e, g c.content = some e → e.isEmpty = false → v = App.normalize_vec e))
        chunks (App.create_vector_index g chunks).embeddings := by
  refine ⟨rfl, by simp [App.create_vector_index], ?_⟩
  show List.Forall₂ _ chunks (chunks.map (App.embed_one g))
  rw [List.forall₂_map_right_iff, List.forall₂_same]
  intro c _
  refine ⟨?_, ?_, ?_⟩
  · intro hg
    simp [App.embed_one, hg]
  · intro e hg he
    simp [App.embed_one, hg, he]
  · intro e hg he
    simp [App.embed_one, hg, he]

/-- C5 (witness): the scenario theorem applied to a concrete document of
three pages of 500, 0 and 450 words. -/
theorem chunk_text_scenario_witness :
    pySplit pageA = words500 ∧ words500.length = 500
    ∧ pySplit ("") = []
    ∧ pySplit pageC = words450 ∧ words450.length = 450
    ∧ PDF.chunk_text [(pageA, 1), ("", 2), (pageC, 3)] =
        [⟨joinWords (words500.take 400), 0, some 1, none⟩,
         ⟨joinWords (words500.drop 350), 1, some 1, none⟩,
         ⟨joinWords (words450.take 400), 2, some 3, none⟩,
         ⟨joinWords (words450.drop 350), 3, some 3, none⟩] := by
  have h1 : pySplit pageA = words500 := pySplit_joinWords words500 (replicate_w_good 500)
  have h3 : pySplit pageC = words450 := pySplit_joinWords words450 (replicate_w_good 450)
  have h1l : words500.length = 500 := List.length_replicate 500 ("w")
  have h3l : words450.length = 450 := List.length_replicate 450 ("w")
  exact ⟨h1, h1l, rfl, h3, h3l,
    chunk_text_scenario pageA ("") pageC words500 words450 h1 h1l rfl h3 h3l⟩

/-- The two transcriptions of the scoring loop agree. -/
theorem app_scored_chunks_eq (chunks : List DocumentChunk) (query : String) :
    App.scored_chunks chunks query = HL.scored_chunks chunks query := by
  induction chunks with
  | nil => rfl
  | cons c cs ih => rw [App.scored_chunks, HL.scored_chunks, ih]

/-- The two transcriptions of the padding loop agree. -/
theorem app_pad_chunks_eq (k : Nat) (used : List Int) (pool : List DocumentChunk) :
    ∀ sel, App.pad_chunks k used pool sel = HL.pad_chunks k used pool sel := by
  induction pool with
  | nil => intro sel; rfl
  | cons c pool ih =>
      intro sel
      rw [App.pad_chunks, HL.pad_chunks]
      by_cases h : c.chunk_id ∉ used ∧ sel.length < k
      · rw [if_pos h, if_pos h, ih]
      · rw [if_neg h, if_neg h, ih]

/-- C9: on a non-empty chunk store with no stored embeddings (the semantic
path inactive), the semantic-capable search of `app` returns exactly the
same result as the keyword-only search of `HealthLink`. -/
theorem keyword_paths_equiv (get_embedding : String → Option (List ℝ))
    (chunks : List DocumentChunk) (query : String) (k : Nat)
    (hne : 0 < chunks.length) :
    App.search_similar_chunks get_embedding ⟨chunks, []⟩ query k
      = HL.search_similar_chunks ⟨chunks⟩ query k := by
  have hne' : chunks.isEmpty = false := by
    cases chunks with
    | nil => simp at hne
    | cons a l => rfl
  simp only [App.search_similar_chunks, HL.search_similar_chunks, hne', Bool.false_eq_true,
    if_false]
  rw [if_neg (by simp)]
  simp only [App.keyword_fallback, app_scored_chunks_eq, app_pad_chunks_eq]

/-- C9 (witness): the equivalence applied to a concrete one-chunk index. -/
theorem keyword_paths_equiv_witness :
    0 < ([wchunk1] : List DocumentChunk).length
    ∧ App.search_similar_chunks (fun _ => none) ⟨[wchunk1], []⟩ ("apple") 5
        = HL.search_similar_chunks ⟨[wchunk1]⟩ ("apple") 5 :=
  ⟨by decide, keyword_paths_equiv (fun _ => none) [wchunk1] ("apple") 5 (by decide)⟩

/-- The question loop produces exactly the per-question answers, in order. -/
theorem answer_loop_eq_map (get_embedding : String → Option (List ℝ))
    (call_model : String → Except String (Option String)) (st : App.ServiceState) :
    ∀ qs : List String, QA.answer_loop get_embedding call_model st qs
      = qs.map (QA.answer_question get_embedding call_model st) := by
  intro qs
  induction qs with
  | nil => rfl
  | cons q qs ih => rw [QA.answer_loop, ih, List.map_cons]

/-- C1: when the pipeline reaches the question loop, the response carries
exactly one answer per question, in order, each answer a function of its own
question alone; a retrieval error or a generative-model error for a question
yields the not-found sentinel for that question, and the request still
completes with `Except.ok`. -/
theorem qa_answers_positional (chunks : List DocumentChunk)
    (get_doc_embedding get_query_embedding : String → Option (List ℝ))
    (call_model : String → Except String (Option String))
    (questions : List String) (st0 : App.ServiceState) :
    (QA.process_qa_request (Except.ok chunks) get_doc_embedding get_query_embedding
        call_model questions st0).1
      = Except.ok ⟨questions.map (QA.answer_question get_query_embedding call_model
          (App.create_vector_index get_doc_embedding chunks))⟩
    ∧ (questions.map (QA.answer_question get_query_embedding call_model
        (App.create_vector_index get_doc_embedding chunks))).length = questions.length
    ∧ (∀ q e, App.get_context_for_question get_query_embedding
          (App.create_vector_index get_doc_embedding chunks) q TOP_K_CHUNKS
          = Except.error e →
        QA.answer_question get_query_embedding call_model
          (App.create_vector_index get_doc_embedding chunks) q = QA.not_found)
    ∧ (∀ q ctx e, App.get_context_for_question get_query_embedding
          (App.create_vector_index get_doc_embedding chunks) q TOP_K_CHUNKS
          = Except.ok ctx →
        call_model (QA.build_prompt q ctx) = Except.error e →
        QA.answer_question get_query_embedding call_model
          (App.create_vector_index get_doc_embedding chunks) q = QA.not_found) := by
  refine ⟨?_, List.length_map _ _, ?_, ?_⟩
  · simp only [QA.process_qa_request, answer_loop_eq_map]
  · intro q e h
    simp [QA.answer_question, h]
  · intro q ctx e h1 h2
    simp [QA.answer_question, h1, QA.generate_answer, h2]

def wq_emb : String → Option (List ℝ) := fun _ => none

def wcall_model : String → Except String (Option String) :=
  fun p =>
    if p = QA.build_prompt ("alpha two") ("[Page 1] apple banana") then Except.error ("boom")
    else Except.ok (some ("42"))

set_option maxRecDepth 8000 in
/-- C1 (witness): a concrete request of three questions over a one-chunk
index, where the generative model throws exactly on question 2 — the
response still has three answers, the second being the sentinel. -/
theorem qa_answers_positional_witness :
    App.get_context_for_question wq_emb (App.create_vector_index wq_emb [wchunk1])
        ("alpha two") TOP_K_CHUNKS = Except.ok ("[Page 1] apple banana")
    ∧ wcall_model (QA.build_prompt ("alpha two") ("[Page 1] apple banana"))
        = Except.error ("boom")
    ∧ QA.answer_question wq_emb wcall_model
        (App.create_vector_index wq_emb [wchunk1]) ("alpha two") = QA.not_found
    ∧ (QA.process_qa_request (Except.ok [wchunk1]) wq_emb wq_emb wcall_model
        ["alpha one", "alpha two", "alpha three"] ⟨[], []⟩).1
      = Except.ok ⟨["42", QA.not_found, "42"]⟩ := by
  have hctx : App.get_context_for_question wq_emb (App.create_vector_index wq_emb [wchunk1])
      ("alpha two") TOP_K_CHUNKS = Except.ok ("[Page 1] apple banana") := rfl
  have hcm : wcall_model (QA.build_prompt ("alpha two") ("[Page 1] apple banana"))
      = Except.error ("boom") := rfl
  refine ⟨hctx, hcm, ?_, ?_⟩
  · exact (qa_answers_positional [wchunk1] wq_emb wq_emb wcall_model
      ["alpha one", "alpha two", "alpha three"] ⟨[], []⟩).2.2.2
      ("alpha two") ("[Page 1] apple banana") ("boom") hctx hcm
  · rw [(qa_answers_positional [wchunk1] wq_emb wq_emb wcall_model
      ["alpha one", "alpha two", "alpha three"] ⟨[], []⟩).1]
    rfl

/-- C2 (amended, witness): the per-chunk theorem instantiated at the mixed
oracle: one embedding per chunk, the successful text normalized, the failed
text the zero vector. -/
theorem create_vector_index_per_chunk_witness :
    (App.create_vector_index emb_oracle [chunk_alpha, chunk_beta]).embeddings.length = 2
    ∧ emb_oracle chunk_alpha.content = some [3, 4]
    ∧ (App.create_vector_index emb_oracle [chunk_alpha, chunk_beta]).embeddings
        = [App.normalize_vec [3, 4], App.zero_vector] := by
  have hlen := (create_vector_index_per_chunk emb_oracle [chunk_alpha, chunk_beta]).2.1
  have hemb : (App.create_vector_index emb_oracle [chunk_alpha, chunk_beta]).embeddings
      = [App.normalize_vec [3, 4], App.zero_vector] := rfl
  exact ⟨hlen.trans rfl, rfl, hemb⟩

/-- C10: every chunk produced by the PDF pipeline carries the 1-based page
number of its source page (an integer at least 1), so context assembly
renders a `[Page N]` tag for it and the `[Unknown Page]` branch is
unreachable on pipeline chunks. -/
theorem pipeline_page_tags (pageTexts : List String) (chunks : List DocumentChunk)
    (h : PDF.process_pdf pageTexts = Except.ok chunks) :
    ∀ c ∈ chunks, ∃ n : Int, 1 ≤ n ∧ c.page_number = some n
      ∧ page_info c = "[Page " ++ toString n ++ "]"
      ∧ page_info c ≠ "[Unknown Page]" := by
  have hchunks : chunks = PDF.chunk_text (PDF.extract_text_from_pdf pageTexts) := by
    simp only [PDF.process_pdf] at h
    by_cases h1 : (PDF.extract_text_from_pdf pageTexts).isEmpty = true
    · rw [if_pos h1] at h; cases h
    · rw [if_neg h1] at h
      by_cases h2 : (PDF.chunk_text (PDF.extract_text_from_pdf pageTexts)).isEmpty = true
      · rw [if_pos h2] at h; cases h
      · rw [if_neg h2] at h
        injection h with h'
        exact h'.symm
  intro c hc
  rw [hchunks] at hc
  obtain ⟨tp, htp, hpage⟩ := chunk_pages_page _ 0 c hc
  have h1le : (1 : Int) ≤ tp.2 := extractPages_page_ge pageTexts 1 tp htp
  have htag : page_info c = "[Page " ++ toString tp.2 ++ "]" := by
    unfold page_info
    rw [hpage]
    dsimp only
    rw [if_neg (show ¬ tp.2 = 0 by omega)]
  exact ⟨tp.2, h1le, hpage, htag, htag ▸ page_tag_ne_unknown _⟩

/-- C10 (witness): the pipeline on a concrete one-page document, whose
single chunk carries page number 1 and renders a `[Page 1]` tag. -/
theorem pipeline_page_tags_witness :
    PDF.process_pdf ["a b c d e f g h i j"] =
      Except.ok [⟨"a b c d e f g h i j", 0, some 1, none⟩]
    ∧ page_info ⟨"a b c d e f g h i j", 0, some 1, none⟩ ≠ "[Unknown Page]" := by
  constructor
  · rfl
  · obtain ⟨n, hn1, hpn, htag, hne⟩ :=
      pipeline_page_tags ["a b c d e f g h i j"]
        [⟨"a b c d e f g h i j", 0, some 1, none⟩] rfl
        ⟨"a b c d e f g h i j", 0, some 1, none⟩ (List.Mem.head _)
    exact hne

end DocQA
